import Mathlib

/-!
# go-scm, GitHub driver: git objects (`scm/driver/github/git.go`)

A shallow embedding of the GitHub git service of go-scm: the wire records, the
converters to the provider-neutral `scm` entities, and the operations that talk to
the transport (`s.client.do`).

Conventions of the embedding.

* Go `string` is `String`; prefix tests and trimming act on the character list.
* A Go slice is a `go.Slice`: the nil slice is kept apart from the empty one.
* A pointer to a record that the code dereferences unconditionally is the record
  itself; a pointer result that the code may return as `nil` is an `Option`.
* `error` and `*scm.Response` results are `Option`s (`none` is `nil`).
* The transport is a state machine over an arbitrary state type; every call of
  `s.client.do` is appended to a log carried next to the transport state.
* `scm.ExpandRef`, `scm.TrimRef`, `scm.Split` and the `scm` entities are declared in
  package `scm`, outside the driver file; they are modelled from the specification.
* The listing and diff operations rest on helpers declared in other files of the
  driver (`encodeListOptions`, `convertChangeList`) and are not part of this
  development; the list converters are.
-/

namespace go

/-- A Go slice value: `nil` is the nil slice, `mk l` a non-nil slice holding `l`. -/
inductive Slice (α : Type) where
  | nil : Slice α
  | mk (elems : List α) : Slice α
  deriving DecidableEq, Repr

/-- The elements a `range` loop visits, in order (none for the nil slice). -/
def Slice.elems {α : Type} : Slice α → List α
  | .nil => []
  | .mk l => l

/-- Go `append(s, x)`: the result is never the nil slice. -/
def Slice.append {α : Type} (s : Slice α) (x : α) : Slice α :=
  .mk (s.elems ++ [x])

/-- Go `len(s)`. -/
def Slice.len {α : Type} (s : Slice α) : Nat :=
  s.elems.length

/-- Whether `s` begins with `p`. -/
def beginsWith (s p : String) : Bool :=
  p.data.isPrefixOf s.data

/-- The string `s` without its leading `p`, or `s` itself when it does not begin with `p`. -/
def stripLeading (s p : String) : String :=
  if beginsWith s p then ⟨s.data.drop p.data.length⟩ else s

/-- The string `s` without its trailing `p`, or `s` itself when it does not end with `p`. -/
def stripTrailing (s p : String) : String :=
  if p.data.isSuffixOf s.data then ⟨s.data.take (s.data.length - p.data.length)⟩ else s

end go

namespace time

/-- Go `time.Time`, by its instant; the driver only copies such values. -/
abbrev Time := Int

end time

namespace scm

open go

/-- Modelled from the spec: `scm.Reference` (declared in package `scm`, outside the
driver file): the normalized pointer to a git ref, with `name`, `path` and `sha`. -/
structure Reference where
  Name : String := ""
  Path : String := ""
  Sha : String := ""
  deriving DecidableEq, Repr

/-- Modelled from the spec: `scm.Signature` (declared in package `scm`): `name`,
`email`, `date`, `login`, `avatar`. -/
structure Signature where
  Name : String := ""
  Email : String := ""
  Date : time.Time := 0
  Login : String := ""
  Avatar : String := ""
  deriving DecidableEq, Repr

/-- Modelled from the spec: `scm.Commit` (declared in package `scm`): `sha`, `link`,
`message`, and the `author` and `committer` signatures. -/
structure Commit where
  Message : String := ""
  Sha : String := ""
  Link : String := ""
  Author : Signature := {}
  Committer : Signature := {}
  deriving DecidableEq, Repr

/-- Modelled from the spec: the blob edit of a commit input (declared in package
`scm`): `path`, file `mode`, `content`. -/
structure Blob where
  Path : String := ""
  Mode : String := ""
  Content : String := ""
  deriving DecidableEq, Repr

/-- Modelled from the spec: `scm.CommitInput` (declared in package `scm`): `message`,
`base`, and the list of blob edits. -/
structure CommitInput where
  Message : String := ""
  Base : String := ""
  Blobs : Slice Blob := .nil
  deriving DecidableEq, Repr

/-- Modelled from the spec: `scm.ReferenceInput` (declared in package `scm`): the
caller-supplied reference name (short or full) and target sha. -/
structure ReferenceInput where
  Name : String := ""
  Sha : String := ""
  deriving DecidableEq, Repr

/-- Modelled from the spec: `scm.ExpandRef` (package `scm`, outside the driver file).
"If `name` already begins with `refs/`, return unchanged; otherwise concatenate
`namespacePrefix` (e.g. `refs/heads`) and `name`." The two are joined as path
segments, by one `/` whether or not the prefix carries a trailing one: the spec
pairs the prefix `refs/heads` with the path `refs/heads/main`, and the driver passes
`refs/heads/` for the same path. -/
def ExpandRef (name namespacePrefix : String) : String :=
  if beginsWith name "refs/" then name
  else stripTrailing namespacePrefix "/" ++ "/" ++ name

/-- Modelled from the spec: `scm.TrimRef` (package `scm`, outside the driver file).
"Strip any leading `refs/heads/` or `refs/tags/` (or equivalent) segment, returning
the bare name. If no known prefix matches, returns the input unchanged." The two
known prefixes are tried one after the other. -/
def TrimRef (path : String) : String :=
  stripLeading (stripLeading path "refs/heads/") "refs/tags/"

/-- Modelled from the spec: `scm.Split` (package `scm`, outside the driver file).
"Splits an `owner/repo` composite identifier on the first separator"; with no
separator the owner is empty (the spec fixes only that; the repo half is then the
whole identifier). -/
def Split (identifier : String) : String × String :=
  match identifier.data.span (fun c => c != '/') with
  | (owner, _ :: repo) => (⟨owner⟩, ⟨repo⟩)
  | (_, []) => ("", identifier)

end scm

namespace github

open go

/-! ## Wire records -/

/-- Modelled from the spec: the wire `file` record of a diff entry (declared in
another file of the driver): path, status, additions and deletions. The code of
this file only stores such records. -/
structure file where
  Filename : String := ""
  Status : String := ""
  Additions : Int := 0
  Deletions : Int := 0
  deriving DecidableEq, Repr

/-- The request body of `CreateBranch`. -/
structure createBranch where
  Ref : String := ""
  Sha : String := ""
  deriving DecidableEq, Repr

/-- The anonymous record of `commit.Commit.Author` and `commit.Commit.Committer`:
the git-level signature. -/
structure gitSignature where
  Name : String := ""
  Email : String := ""
  Date : time.Time := 0
  deriving DecidableEq, Repr

/-- The anonymous record of `commit.Commit`: the git-level block. -/
structure gitCommit where
  Author : gitSignature := {}
  Committer : gitSignature := {}
  Message : String := ""
  deriving DecidableEq, Repr

/-- The anonymous record of `commit.Author` and `commit.Committer`: the account block. -/
structure account where
  AvatarURL : String := ""
  Login : String := ""
  deriving DecidableEq, Repr

/-- The wire commit record. -/
structure commit where
  Sha : String := ""
  URL : String := ""
  Commit : gitCommit := {}
  Author : account := {}
  Committer : account := {}
  Files : Slice file := .nil
  deriving DecidableEq, Repr

/-- The wire branch record, also used for tags. -/
structure branch where
  Name : String := ""
  Commit : commit := {}
  Protected : Bool := false
  deriving DecidableEq, Repr

/-- The request body of the commit step of `CreateCommit`. -/
structure commitInput where
  Message : String := ""
  Tree : String := ""
  Parents : Slice String := .nil
  deriving DecidableEq, Repr

/-- One entry of a tree (`Type_` is the field `Type`). -/
structure blob where
  Path : String := ""
  Mode : String := ""
  Type_ : String := ""
  Sha : String := ""
  Content : String := ""
  deriving DecidableEq, Repr

/-- The wire tree record: request and response body of the tree step. -/
structure gitTree where
  Sha : String := ""
  URL : String := ""
  Owner : String := ""
  Repo : String := ""
  Tree : Slice blob := .nil
  BaseTree : String := ""
  deriving DecidableEq, Repr

/-- The anonymous record of `ref.Object` (`Type_` is the field `Type`). -/
structure refObject where
  Type_ : String := ""
  Sha : String := ""
  deriving DecidableEq, Repr

/-- The wire git ref record. -/
structure ref where
  Ref : String := ""
  Object : refObject := {}
  deriving DecidableEq, Repr

/-! ## Converters -/

/-- Go `convertCommit`. -/
def convertCommit (src : commit) : scm.Commit :=
  { Message := src.Commit.Message
    Sha := src.Sha
    Link := src.URL
    Author :=
      { Name := src.Commit.Author.Name
        Email := src.Commit.Author.Email
        Date := src.Commit.Author.Date
        Login := src.Author.Login
        Avatar := src.Author.AvatarURL }
    Committer :=
      { Name := src.Commit.Committer.Name
        Email := src.Commit.Committer.Email
        Date := src.Commit.Committer.Date
        Login := src.Committer.Login
        Avatar := src.Committer.AvatarURL } }

/-- Go `convertCommitList`: `to := []*scm.Commit{}` (here `dst`), then one `append` per
element of `from` (here `src`). -/
def convertCommitList (src : Slice commit) : Slice scm.Commit :=
  src.elems.foldl (fun dst v => dst.append (convertCommit v)) (.mk [])

/-- Go `convertBranch`. -/
def convertBranch (src : branch) : scm.Reference :=
  { Name := scm.TrimRef src.Name
    Path := scm.ExpandRef src.Name "refs/heads/"
    Sha := src.Commit.Sha }

/-- Go `convertBranchList`. -/
def convertBranchList (src : Slice branch) : Slice scm.Reference :=
  src.elems.foldl (fun dst v => dst.append (convertBranch v)) (.mk [])

/-- Go `convertRef`. -/
def convertRef (src : ref) : scm.Reference :=
  { Name := scm.TrimRef src.Ref
    Path := src.Ref
    Sha := src.Object.Sha }

/-- Go `convertTag`. -/
def convertTag (src : branch) : scm.Reference :=
  { Name := scm.TrimRef src.Name
    Path := scm.ExpandRef src.Name "refs/tags/"
    Sha := src.Commit.Sha }

/-- Go `convertTagList`. -/
def convertTagList (src : Slice branch) : Slice scm.Reference :=
  src.elems.foldl (fun dst v => dst.append (convertTag v)) (.mk [])

/-! ## The transport -/

/-- The `in` argument of `s.client.do`: `nil` or a pointer to a request body. -/
inductive In where
  | nil : In
  | createBranch (v : createBranch) : In
  | commitInput (v : commitInput) : In
  | gitTree (v : gitTree) : In
  deriving DecidableEq, Repr

/-- The type of the record behind the `out` argument of `s.client.do`. -/
inductive OutKind where
  | nil : OutKind
  | branch : OutKind
  | commit : OutKind
  | ref : OutKind
  | gitTree : OutKind
  deriving DecidableEq, Repr

/-- The record behind an `out` pointer of the given kind. -/
def OutKind.Rec : OutKind → Type
  | .nil => Unit
  | .branch => github.branch
  | .commit => github.commit
  | .ref => github.ref
  | .gitTree => github.gitTree

/-- One call `s.client.do(ctx, method, path, in, out)` as the transport receives it
(of `out`, the kind; the record behind it is passed beside the call). -/
structure Call (Ctx : Type) where
  ctx : Ctx
  method : String
  path : String
  body : In
  out : OutKind
  deriving DecidableEq

/-- What one call leaves behind: the record behind `out` after the call, and the
returned `(*scm.Response, error)`. -/
structure Reply (Res Err α : Type) where
  out : α
  res : Option Res
  err : Option Err

/-- The transport collaborator `wrapper`: from its state, a call and the record
behind `out`, the next state and the reply. -/
structure wrapper (Ctx Res Err σ : Type) where
  exec : σ → (c : Call Ctx) → c.out.Rec → σ × Reply Res Err c.out.Rec

/-- The transport state together with the log of the calls made so far. -/
structure World (Ctx σ : Type) where
  state : σ
  calls : List (Call Ctx)

/-- What an operation hands back: the world after it, and the returned value,
`*scm.Response` and `error`. -/
structure Ret (Ctx Res Err σ α : Type) where
  world : World Ctx σ
  val : α
  res : Option Res
  err : Option Err

/-- The call `s.client.do(ctx, method, path, in, out)`: logged, then executed; `val`
is the record behind `out` after the call. -/
def wrapper.do_ {Ctx Res Err σ : Type} (c : wrapper Ctx Res Err σ) (w : World Ctx σ)
    (ctx : Ctx) (method path : String) (body : In) (k : OutKind) (out : k.Rec) :
    Ret Ctx Res Err σ k.Rec :=
  let call : Call Ctx := { ctx := ctx, method := method, path := path, body := body, out := k }
  let r := c.exec w.state call out
  { world := { state := r.1, calls := w.calls ++ [call] }
    val := r.2.out
    res := r.2.res
    err := r.2.err }

/-- The service `gitService`. -/
structure gitService (Ctx Res Err σ : Type) where
  client : wrapper Ctx Res Err σ

/-! ## Operations -/

section Operations

variable {Ctx Res Err σ : Type}

/-- Go `CreateBranch`. -/
def gitService.CreateBranch (s : gitService Ctx Res Err σ) (w : World Ctx σ) (ctx : Ctx)
    (repo : String) (params : scm.ReferenceInput) : Ret Ctx Res Err σ Unit :=
  let path := "repos/" ++ repo ++ "/git/refs"
  let body : createBranch :=
    { Ref := scm.ExpandRef params.Name "refs/heads"
      Sha := params.Sha }
  s.client.do_ w ctx "POST" path (.createBranch body) .nil ()

/-- Go `FindBranch`. -/
def gitService.FindBranch (s : gitService Ctx Res Err σ) (w : World Ctx σ) (ctx : Ctx)
    (repo name : String) : Ret Ctx Res Err σ (Option scm.Reference) :=
  let path := "repos/" ++ repo ++ "/branches/" ++ name
  let out : branch := {}
  let r := s.client.do_ w ctx "GET" path .nil .branch out
  { world := r.world, val := some (convertBranch r.val), res := r.res, err := r.err }

/-- Go `createTree`. -/
def gitService.createTree (s : gitService Ctx Res Err σ) (w : World Ctx σ) (ctx : Ctx)
    (repo : String) (opts : scm.CommitInput) : Ret Ctx Res Err σ gitTree :=
  let path := "repos/" ++ repo ++ "/git/trees"
  let (owner, repo) := scm.Split repo
  let body : gitTree := {}
  let body := { body with BaseTree := opts.Base }
  let body := { body with Owner := owner }
  let body := { body with Repo := repo }
  let body := opts.Blobs.elems.foldl
    (fun (acc : gitTree) b =>
      { acc with
        Tree := acc.Tree.append
          { Path := b.Path
            Mode := b.Mode
            Type_ := "commit"
            Content := b.Content } })
    body
  let out : gitTree := {}
  s.client.do_ w ctx "POST" path (.gitTree body) .gitTree out

/-- Go `CreateCommit`. -/
def gitService.CreateCommit (s : gitService Ctx Res Err σ) (w : World Ctx σ) (ctx : Ctx)
    (repo : String) (opts : scm.CommitInput) : Ret Ctx Res Err σ (Option scm.Commit) :=
  let t := s.createTree w ctx repo opts
  let tree := t.val
  if t.err.isSome then { world := t.world, val := none, res := t.res, err := t.err }
  else
    let path := "repos/" ++ repo ++ "/git/commits"
    let body : commitInput := {}
    let body := { body with Message := opts.Message }
    let body := { body with Tree := tree.Sha }
    let body := { body with Parents := .mk [opts.Base] }
    let out : commit := {}
    let r := s.client.do_ t.world ctx "POST" path (.commitInput body) .commit out
    if r.err.isSome then { world := r.world, val := none, res := r.res, err := r.err }
    else { world := r.world, val := some (convertCommit r.val), res := r.res, err := r.err }

/-- Go `FindCommit`. -/
def gitService.FindCommit (s : gitService Ctx Res Err σ) (w : World Ctx σ) (ctx : Ctx)
    (repo ref : String) : Ret Ctx Res Err σ (Option scm.Commit) :=
  let path := "repos/" ++ repo ++ "/commits/" ++ ref
  let out : commit := {}
  let r := s.client.do_ w ctx "GET" path .nil .commit out
  { world := r.world, val := some (convertCommit r.val), res := r.res, err := r.err }

/-- Go `FindTag`. -/
def gitService.FindTag (s : gitService Ctx Res Err σ) (w : World Ctx σ) (ctx : Ctx)
    (repo name : String) : Ret Ctx Res Err σ (Option scm.Reference) :=
  let path := "repos/" ++ repo ++ "/git/ref/tags/" ++ name
  let out : github.ref := {}
  let r := s.client.do_ w ctx "GET" path .nil .ref out
  { world := r.world, val := some (convertRef r.val), res := r.res, err := r.err }

end Operations

end github

/-! ## The Reference invariant -/

namespace go

/-- The path ends with the name as its trailing segment: the name is the end of the
path, and what stands before it is empty or ends with `/`. -/
def endsWithSegment (path name : String) : Bool :=
  name.data.isSuffixOf path.data &&
    (match (path.data.take (path.data.length - name.data.length)).getLast? with
     | none => true
     | some c => c == '/')

/-- The list `k` ends `s` at a segment border. -/
def SegmentEnd (s k : List Char) : Prop :=
  ∃ pre : List Char, s = pre ++ k ∧ (pre = [] ∨ pre.getLast? = some '/')

end go

namespace scm

open go

/-- The Reference invariant of the data model: `path` ends with `name` as its
trailing segment, and `name` does not begin with `refs/`. -/
def ReferenceInvariant (r : Reference) : Bool :=
  endsWithSegment r.Path r.Name && !beginsWith r.Name "refs/"

end scm

/-! ## Sample transports -/

namespace github

/-- What a sample transport writes behind `out` on success: a tree gets the sha
`t1`, a commit the sha `c1`, other records are left as they are. -/
def stamp : (k : OutKind) → k.Rec → k.Rec
  | .gitTree, (t : gitTree) => { t with Sha := "t1" }
  | .commit, (c : commit) => { c with Sha := "c1" }
  | .nil, u => u
  | .branch, b => b
  | .ref, r => r

/-- A sample service over a transport that counts its calls in its state: call
number `k` (from 0) fails with status 500 and writes nothing, every other call
succeeds with status 201 and stamps `out`. -/
def scripted (k : Nat) : gitService Unit Nat String Nat :=
  { client :=
      { exec := fun st c out =>
          (st + 1,
            if st = k then { out := out, res := some 500, err := some "failed" }
            else { out := stamp c.out out, res := some 201, err := none }) } }

/-- The world before any call, for the sample services. -/
def fresh : World Unit Nat :=
  { state := 0, calls := [] }

/-- A sample commit record: authored outside the platform (no author account),
committed through an account. -/
def sampleCommit : commit :=
  { Sha := "abc123"
    URL := "c/abc123"
    Commit :=
      { Author := { Name := "Ada", Email := "ada@example.com", Date := 5 }
        Committer := { Name := "Web", Email := "web@example.com", Date := 7 }
        Message := "fix" }
    Author := {}
    Committer := { AvatarURL := "web.png", Login := "web" } }

/-- A sample commit record whose author account block carries an avatar and no
login. -/
def sampleNoLogin : commit :=
  { Sha := "abc123"
    URL := "c/abc123"
    Commit :=
      { Author := { Name := "Ada", Email := "ada@example.com", Date := 5 }
        Committer := { Name := "Web", Email := "web@example.com", Date := 7 }
        Message := "fix" }
    Author := { AvatarURL := "ada.png", Login := "" }
    Committer := { AvatarURL := "web.png", Login := "web" } }

/-- A sample commit input: two file edits on top of `b0`. -/
def sampleInput : scm.CommitInput :=
  { Message := "update"
    Base := "b0"
    Blobs := .mk
      [{ Path := "README.md", Mode := "100644", Content := "hello" },
       { Path := "bin/run", Mode := "100755", Content := "exit" }] }

end github

/-! # Theorems -/

/-! ## Reference names -/

namespace go

theorem beginsWith_iff (s p : String) : beginsWith s p = true ↔ p.data <+: s.data := by
  unfold beginsWith
  exact List.isPrefixOf_iff_prefix

theorem beginsWith_append (p s : String) : beginsWith (p ++ s) p = true := by
  rw [beginsWith_iff, String.data_append]
  exact List.prefix_append _ _

theorem beginsWith_of_beginsWith (s p q : String) (hq : beginsWith p q = true)
    (hp : beginsWith s p = true) : beginsWith s q = true := by
  rw [beginsWith_iff] at *
  exact hq.trans hp

theorem stripLeading_append (p s : String) : stripLeading (p ++ s) p = s := by
  unfold stripLeading
  rw [if_pos (beginsWith_append p s)]
  apply String.ext
  simp [String.data_append]

theorem stripLeading_of_not (s p : String) (h : beginsWith s p = false) :
    stripLeading s p = s := by
  unfold stripLeading
  simp [h]

end go

namespace scm

open go

theorem TrimRef_of_not_refs (n : String) (h : beginsWith n "refs/" = false) :
    TrimRef n = n := by
  have h1 : beginsWith n "refs/heads/" = false := by
    cases hb : beginsWith n "refs/heads/" with
    | false => rfl
    | true => rw [beginsWith_of_beginsWith n "refs/heads/" "refs/" (by decide) hb] at h; cases h
  have h2 : beginsWith n "refs/tags/" = false := by
    cases hb : beginsWith n "refs/tags/" with
    | false => rfl
    | true => rw [beginsWith_of_beginsWith n "refs/tags/" "refs/" (by decide) hb] at h; cases h
  unfold TrimRef
  rw [stripLeading_of_not n _ h1, stripLeading_of_not n _ h2]

theorem TrimRef_heads (n : String) (h : beginsWith n "refs/" = false) :
    TrimRef ("refs/heads/" ++ n) = n := by
  have h2 : stripLeading n "refs/tags/" = n := by
    have := TrimRef_of_not_refs n h
    unfold TrimRef at this
    cases hb : beginsWith n "refs/heads/" with
    | false => rwa [stripLeading_of_not n _ hb] at this
    | true => rw [beginsWith_of_beginsWith n "refs/heads/" "refs/" (by decide) hb] at h; cases h
  unfold TrimRef
  rw [stripLeading_append, h2]

theorem ExpandRef_of_not_refs (n p : String) (h : beginsWith n "refs/" = false) :
    ExpandRef n p = stripTrailing p "/" ++ "/" ++ n := by
  unfold ExpandRef
  simp [h]

theorem ExpandRef_of_refs (n p : String) (h : beginsWith n "refs/" = true) :
    ExpandRef n p = n := by
  unfold ExpandRef
  simp [h]

end scm

namespace github

open go scm

/-- C7. For every ref name `n` that does not begin with `refs/`, trimming the
expansion of `n` into the branch namespace gives `n` back:
`TrimRef (ExpandRef n "refs/heads") = n`, with the prefix exactly as `CreateBranch`
passes it; the same holds for the prefix `refs/heads/` that `convertBranch` passes. -/
theorem TrimRef_ExpandRef_roundtrip (n : String) (h : beginsWith n "refs/" = false) :
    TrimRef (ExpandRef n "refs/heads") = n ∧ TrimRef (ExpandRef n "refs/heads/") = n := by
  rw [ExpandRef_of_not_refs n _ h, ExpandRef_of_not_refs n _ h]
  have e1 : stripTrailing "refs/heads" "/" ++ "/" = "refs/heads/" := by decide
  have e2 : stripTrailing "refs/heads/" "/" ++ "/" = "refs/heads/" := by decide
  rw [e1, e2]
  exact ⟨TrimRef_heads n h, TrimRef_heads n h⟩

/-- Witness of C7 at the name `main`. -/
theorem TrimRef_ExpandRef_roundtrip_witness :
    beginsWith "main" "refs/" = false ∧
      (TrimRef (ExpandRef "main" "refs/heads") = "main" ∧
        TrimRef (ExpandRef "main" "refs/heads/") = "main") :=
  ⟨by decide, TrimRef_ExpandRef_roundtrip "main" (by decide)⟩

end github

namespace go

theorem segmentEnd_refl (s : List Char) : SegmentEnd s s :=
  ⟨[], rfl, Or.inl rfl⟩

theorem segmentEnd_trans {s m k : List Char} (h1 : SegmentEnd s m) (h2 : SegmentEnd m k) :
    SegmentEnd s k := by
  obtain ⟨p1, e1, c1⟩ := h1
  obtain ⟨p2, e2, c2⟩ := h2
  refine ⟨p1 ++ p2, by rw [e1, e2, List.append_assoc], ?_⟩
  rcases c2 with c2 | c2
  · subst c2
    simpa using c1
  · right
    have hne : p2 ≠ [] := by
      intro h
      rw [h] at c2
      cases c2
    rw [List.getLast?_append_of_ne_nil _ hne]
    exact c2

theorem endsWithSegment_of_segmentEnd (path name : String)
    (h : SegmentEnd path.data name.data) : endsWithSegment path name = true := by
  obtain ⟨pre, e, c⟩ := h
  unfold endsWithSegment
  rw [e]
  have hs : name.data.isSuffixOf (pre ++ name.data) = true :=
    List.isSuffixOf_iff_suffix.mpr (List.suffix_append _ _)
  have ht : (pre ++ name.data).take ((pre ++ name.data).length - name.data.length) = pre := by
    simp
  rw [hs, ht]
  rcases c with c | c
  · subst c
    rfl
  · rw [c]
    rfl

theorem segmentEnd_stripLeading (s p : String) (hp : p.data.getLast? = some '/') :
    SegmentEnd s.data (stripLeading s p).data := by
  unfold stripLeading
  by_cases hb : beginsWith s p = true
  · rw [if_pos hb]
    obtain ⟨t, ht⟩ := (beginsWith_iff s p).mp hb
    refine ⟨p.data, ?_, Or.inr hp⟩
    rw [← ht]
    simp
  · rw [if_neg hb]
    exact segmentEnd_refl _

end go

namespace scm

open go

theorem not_beginsWith_tags_heads (n : String) :
    beginsWith ("refs/tags/" ++ n) "refs/heads/" = false := by
  unfold beginsWith
  rw [String.data_append]
  rfl

theorem TrimRef_tags (n : String) : TrimRef ("refs/tags/" ++ n) = n := by
  unfold TrimRef
  rw [stripLeading_of_not _ _ (not_beginsWith_tags_heads n), stripLeading_append]

theorem segmentEnd_TrimRef (s : String) : SegmentEnd s.data (TrimRef s).data := by
  unfold TrimRef
  exact segmentEnd_trans (segmentEnd_stripLeading s "refs/heads/" (by decide))
    (segmentEnd_stripLeading _ "refs/tags/" (by decide))

theorem segmentEnd_ExpandRef (s p : String) :
    SegmentEnd (ExpandRef s p).data (TrimRef s).data := by
  cases h : beginsWith s "refs/" with
  | true =>
    rw [ExpandRef_of_refs s p h]
    exact segmentEnd_TrimRef s
  | false =>
    rw [ExpandRef_of_not_refs s p h, TrimRef_of_not_refs s h]
    refine ⟨(stripTrailing p "/" ++ "/").data, by simp [String.data_append], Or.inr ?_⟩
    rw [String.data_append]
    exact List.getLast?_append_of_ne_nil _ (by decide)

theorem TrimRef_bare (s n : String) (hn : beginsWith n "refs/" = false)
    (hs : s = n ∨ s = "refs/heads/" ++ n ∨ s = "refs/tags/" ++ n) : TrimRef s = n := by
  rcases hs with hs | hs | hs
  · rw [hs]; exact TrimRef_of_not_refs n hn
  · rw [hs]; exact TrimRef_heads n hn
  · rw [hs]; exact TrimRef_tags n

end scm

namespace github

open go scm

/-- C5, as amended. For every wire record, the Reference that `convertBranch`,
`convertTag` and `convertRef` produce has a path that ends with its name as the
trailing segment. Its name does not begin with `refs/`, so that the whole Reference
invariant holds, whenever the record's name (for `convertRef`, its ref) is `n`,
`refs/heads/n` or `refs/tags/n` for some `n` that does not begin with `refs/`. -/
theorem converted_reference_invariant (b : branch) (r : ref) :
    (endsWithSegment (convertBranch b).Path (convertBranch b).Name = true ∧
      endsWithSegment (convertTag b).Path (convertTag b).Name = true ∧
      endsWithSegment (convertRef r).Path (convertRef r).Name = true) ∧
    (∀ n : String, beginsWith n "refs/" = false →
      (b.Name = n ∨ b.Name = "refs/heads/" ++ n ∨ b.Name = "refs/tags/" ++ n) →
      ReferenceInvariant (convertBranch b) = true ∧
        ReferenceInvariant (convertTag b) = true) ∧
    (∀ n : String, beginsWith n "refs/" = false →
      (r.Ref = n ∨ r.Ref = "refs/heads/" ++ n ∨ r.Ref = "refs/tags/" ++ n) →
      ReferenceInvariant (convertRef r) = true) := by
  have hb : endsWithSegment (convertBranch b).Path (convertBranch b).Name = true :=
    endsWithSegment_of_segmentEnd _ _ (segmentEnd_ExpandRef b.Name "refs/heads/")
  have ht : endsWithSegment (convertTag b).Path (convertTag b).Name = true :=
    endsWithSegment_of_segmentEnd _ _ (segmentEnd_ExpandRef b.Name "refs/tags/")
  have hr : endsWithSegment (convertRef r).Path (convertRef r).Name = true :=
    endsWithSegment_of_segmentEnd _ _ (segmentEnd_TrimRef r.Ref)
  refine ⟨⟨hb, ht, hr⟩, ?_, ?_⟩
  · intro n hn hs
    have e : TrimRef b.Name = n := TrimRef_bare b.Name n hn hs
    have eb : (convertBranch b).Name = n := e
    have et : (convertTag b).Name = n := e
    unfold ReferenceInvariant
    rw [hb, ht, eb, et, hn]
    exact ⟨rfl, rfl⟩
  · intro n hn hs
    have e : (convertRef r).Name = n := TrimRef_bare r.Ref n hn hs
    unfold ReferenceInvariant
    rw [hr, e, hn]
    rfl

/-- Witness of C5 as amended, at a branch record named `main` and the tag ref
`refs/tags/v1`. -/
theorem converted_reference_invariant_witness :
    ReferenceInvariant (convertBranch { Name := "main", Commit := { Sha := "abc123" } }) = true ∧
      ReferenceInvariant (convertTag { Name := "main", Commit := { Sha := "abc123" } }) = true ∧
      ReferenceInvariant (convertRef { Ref := "refs/tags/v1", Object := { Sha := "abc123" } })
        = true :=
  have h := converted_reference_invariant { Name := "main", Commit := { Sha := "abc123" } }
    { Ref := "refs/tags/v1", Object := { Sha := "abc123" } }
  ⟨(h.2.1 "main" (by decide) (Or.inl rfl)).1, (h.2.1 "main" (by decide) (Or.inl rfl)).2,
    h.2.2 "v1" (by decide) (Or.inr (Or.inr (by decide)))⟩

/-- Counterexample to C5 as stated. A branch (or tag) record named `refs/v1`, as
the listing of a branch `refs/heads/refs/v1` reports it, the ref record of a tag
named `refs/v1`, and a ref record outside the two known namespaces are converted
to References whose name begins with `refs/`. -/
theorem converted_reference_invariant_counterexample :
    ((convertBranch { Name := "refs/v1", Commit := { Sha := "abc123" } }).Name = "refs/v1" ∧
      ReferenceInvariant (convertBranch { Name := "refs/v1", Commit := { Sha := "abc123" } })
        = false) ∧
    ((convertTag { Name := "refs/v1", Commit := { Sha := "abc123" } }).Name = "refs/v1" ∧
      ReferenceInvariant (convertTag { Name := "refs/v1", Commit := { Sha := "abc123" } })
        = false) ∧
    ((convertRef { Ref := "refs/tags/refs/v1", Object := { Sha := "abc123" } }).Name
        = "refs/v1" ∧
      ReferenceInvariant (convertRef { Ref := "refs/tags/refs/v1", Object := { Sha := "abc123" } })
        = false) ∧
    ((convertRef { Ref := "refs/pull/1/head", Object := { Sha := "abc123" } }).Name
        = "refs/pull/1/head" ∧
      ReferenceInvariant (convertRef { Ref := "refs/pull/1/head", Object := { Sha := "abc123" } })
        = false) := by
  decide

/-- C6. For every branch-shaped record whose name `n` does not begin with `refs/`
and whose commit sha is `s`, `convertBranch` yields exactly
`{name: n, path: "refs/heads/" ++ n, sha: s}` and `convertTag` yields
`{name: n, path: "refs/tags/" ++ n, sha: s}`. -/
theorem convertBranch_convertTag_bare_name (b : branch)
    (h : beginsWith b.Name "refs/" = false) :
    convertBranch b = { Name := b.Name, Path := "refs/heads/" ++ b.Name, Sha := b.Commit.Sha } ∧
      convertTag b = { Name := b.Name, Path := "refs/tags/" ++ b.Name, Sha := b.Commit.Sha } := by
  have e1 : stripTrailing "refs/heads/" "/" ++ "/" = "refs/heads/" := by decide
  have e2 : stripTrailing "refs/tags/" "/" ++ "/" = "refs/tags/" := by decide
  unfold convertBranch convertTag
  rw [TrimRef_of_not_refs _ h, ExpandRef_of_not_refs _ _ h, ExpandRef_of_not_refs _ _ h, e1, e2]
  exact ⟨rfl, rfl⟩

/-- Witness of C6: the record named `main` with commit sha `abc123`. -/
theorem convertBranch_convertTag_bare_name_witness :
    beginsWith "main" "refs/" = false ∧
      (convertBranch { Name := "main", Commit := { Sha := "abc123" } }
          = { Name := "main", Path := "refs/heads/main", Sha := "abc123" } ∧
        convertTag { Name := "main", Commit := { Sha := "abc123" } }
          = { Name := "main", Path := "refs/tags/main", Sha := "abc123" }) :=
  ⟨by decide,
    convertBranch_convertTag_bare_name { Name := "main", Commit := { Sha := "abc123" } }
      (by decide)⟩

end github

namespace go

theorem slice_foldl_append {α β : Type} (f : α → β) (l : List α) (acc : List β) :
    l.foldl (fun dst v => Slice.append dst (f v)) (Slice.mk acc) = Slice.mk (acc ++ l.map f) := by
  induction l generalizing acc with
  | nil => simp
  | cons x xs ih =>
    rw [List.foldl_cons]
    show List.foldl _ (Slice.mk (acc ++ [f x])) xs = _
    rw [ih]
    simp

end go

namespace github

open go scm

/-- C9. For every input list, `convertCommitList`, `convertBranchList` and
`convertTagList` return a non-nil list whose elements are the single-record
conversions of the input's elements, in input order: the lengths agree and the
`i`-th output is the conversion of the `i`-th input. The nil and the empty input
both give the empty, non-nil list. -/
theorem convert_list_elementwise (cs : Slice commit) (bs : Slice branch) :
    (convertCommitList cs = Slice.mk (cs.elems.map convertCommit) ∧
      convertBranchList bs = Slice.mk (bs.elems.map convertBranch) ∧
      convertTagList bs = Slice.mk (bs.elems.map convertTag)) ∧
    ((convertCommitList cs).len = cs.len ∧
      (convertBranchList bs).len = bs.len ∧
      (convertTagList bs).len = bs.len) ∧
    (∀ i : Nat,
      (convertCommitList cs).elems[i]? = cs.elems[i]?.map convertCommit ∧
      (convertBranchList bs).elems[i]? = bs.elems[i]?.map convertBranch ∧
      (convertTagList bs).elems[i]? = bs.elems[i]?.map convertTag) ∧
    (convertCommitList Slice.nil = Slice.mk [] ∧ convertCommitList (Slice.mk []) = Slice.mk [] ∧
      convertBranchList Slice.nil = Slice.mk [] ∧ convertBranchList (Slice.mk []) = Slice.mk [] ∧
      convertTagList Slice.nil = Slice.mk [] ∧ convertTagList (Slice.mk []) = Slice.mk []) := by
  have hc : convertCommitList cs = Slice.mk (cs.elems.map convertCommit) := by
    unfold convertCommitList
    rw [slice_foldl_append]
    rfl
  have hb : convertBranchList bs = Slice.mk (bs.elems.map convertBranch) := by
    unfold convertBranchList
    rw [slice_foldl_append]
    rfl
  have ht : convertTagList bs = Slice.mk (bs.elems.map convertTag) := by
    unfold convertTagList
    rw [slice_foldl_append]
    rfl
  refine ⟨⟨hc, hb, ht⟩, ?_, ?_, ?_⟩
  · rw [hc, hb, ht]
    simp [Slice.len, Slice.elems]
  · intro i
    rw [hc, hb, ht]
    simp [Slice.elems]
  · exact ⟨rfl, rfl, rfl, rfl, rfl, rfl⟩

/-- C10, as amended. For every commit record, `convertCommit` takes `sha`, `link`
and `message` from `sha`, `html_url` and `commit.message`, and fills each signature
from the two sources of its own role: name, email and date from the git-level block
(`commit.author`, `commit.committer`), login and avatar from the account block
(`author`, `committer`). Hence a record whose author account block is absent (login
and avatar_url both empty) and whose git-level author name and email are non-empty
yields an Author with those non-empty name and email and empty login and avatar. -/
theorem convertCommit_fields (c : commit) :
    ((convertCommit c).Sha = c.Sha ∧ (convertCommit c).Link = c.URL ∧
      (convertCommit c).Message = c.Commit.Message) ∧
    (convertCommit c).Author =
      { Name := c.Commit.Author.Name, Email := c.Commit.Author.Email,
        Date := c.Commit.Author.Date, Login := c.Author.Login, Avatar := c.Author.AvatarURL } ∧
    (convertCommit c).Committer =
      { Name := c.Commit.Committer.Name, Email := c.Commit.Committer.Email,
        Date := c.Commit.Committer.Date, Login := c.Committer.Login,
        Avatar := c.Committer.AvatarURL } ∧
    (c.Author.Login = "" → c.Author.AvatarURL = "" →
      c.Commit.Author.Name ≠ "" → c.Commit.Author.Email ≠ "" →
      (convertCommit c).Author.Name = c.Commit.Author.Name ∧
      (convertCommit c).Author.Name ≠ "" ∧
      (convertCommit c).Author.Email = c.Commit.Author.Email ∧
      (convertCommit c).Author.Email ≠ "" ∧
      (convertCommit c).Author.Login = "" ∧
      (convertCommit c).Author.Avatar = "") := by
  refine ⟨⟨rfl, rfl, rfl⟩, rfl, rfl, ?_⟩
  intro hl ha hn he
  exact ⟨rfl, hn, rfl, he, hl, ha⟩

/-- Witness of C10 as amended: a commit authored outside the platform (no author
account), with a committer account. -/
theorem convertCommit_fields_witness :
    (convertCommit sampleCommit).Author
        = { Name := "Ada", Email := "ada@example.com", Date := 5, Login := "", Avatar := "" } ∧
      (convertCommit sampleCommit).Author.Name ≠ "" ∧
      (convertCommit sampleCommit).Author.Email ≠ "" ∧
      (convertCommit sampleCommit).Author.Login = "" ∧
      (convertCommit sampleCommit).Author.Avatar = "" ∧
      (convertCommit sampleCommit).Committer
        = { Name := "Web", Email := "web@example.com", Date := 7, Login := "web",
            Avatar := "web.png" } :=
  have h := (convertCommit_fields sampleCommit).2.2.2 rfl rfl (by decide) (by decide)
  ⟨(convertCommit_fields sampleCommit).2.1, h.2.1, h.2.2.2.1, h.2.2.2.2.1, h.2.2.2.2.2,
    (convertCommit_fields sampleCommit).2.2.1⟩

/-- Counterexample to C10 as stated. The author login of the record is absent and
its git-level author name and email are non-empty, yet the Author's avatar is not
empty: it is the avatar_url of the account block, copied whatever the login is. -/
theorem convertCommit_avatar_counterexample :
    sampleNoLogin.Author.Login = "" ∧
      sampleNoLogin.Commit.Author.Name ≠ "" ∧
      sampleNoLogin.Commit.Author.Email ≠ "" ∧
      (convertCommit sampleNoLogin).Author
        = { Name := "Ada", Email := "ada@example.com", Date := 5, Login := "",
            Avatar := "ada.png" } ∧
      (convertCommit sampleNoLogin).Author.Avatar ≠ "" := by
  decide

end github

namespace github

open go scm

section Transport

variable {Ctx Res Err σ : Type}

theorem do_calls (c : wrapper Ctx Res Err σ) (w : World Ctx σ) (ctx : Ctx)
    (method path : String) (body : In) (k : OutKind) (out : k.Rec) :
    (c.do_ w ctx method path body k out).world.calls =
      w.calls ++ [{ ctx := ctx, method := method, path := path, body := body, out := k }] :=
  rfl

theorem treeBody_fold (f : scm.Blob → blob) (l : List scm.Blob) (body : gitTree) :
    ∃ t : Slice blob,
      l.foldl (fun (acc : gitTree) b => { acc with Tree := acc.Tree.append (f b) }) body
        = { body with Tree := t } ∧
      t.elems = body.Tree.elems ++ l.map f := by
  induction l generalizing body with
  | nil => exact ⟨body.Tree, rfl, by simp⟩
  | cons x xs ih =>
    obtain ⟨t, ht, hel⟩ := ih { body with Tree := body.Tree.append (f x) }
    refine ⟨t, ?_, ?_⟩
    · rw [List.foldl_cons, ht]
    · rw [hel]
      simp [Slice.append, Slice.elems]

/-- C4. For every repository identifier and commit input, the tree-creation
request of `createTree` is the one call it makes: a POST to
`repos/{repo}/git/trees`, the path built from the full identifier, whose body has
`base_tree` equal to the input's base, `owner` and `repo` equal to the two halves
of `Split(repo)`, and one tree entry per blob edit, in input order, carrying that
edit's path, mode and content with `type` fixed to `commit`. -/
theorem createTree_request (s : gitService Ctx Res Err σ) (w : World Ctx σ) (ctx : Ctx)
    (repo : String) (opts : scm.CommitInput) :
    ∃ body : gitTree,
      (s.createTree w ctx repo opts).world.calls =
        w.calls ++
          [{ ctx := ctx, method := "POST", path := "repos/" ++ repo ++ "/git/trees",
             body := In.gitTree body, out := OutKind.gitTree }] ∧
      body.BaseTree = opts.Base ∧
      body.Owner = (scm.Split repo).1 ∧
      body.Repo = (scm.Split repo).2 ∧
      body.Tree.len = opts.Blobs.len ∧
      body.Tree.elems =
        opts.Blobs.elems.map (fun b =>
          ({ Path := b.Path, Mode := b.Mode, Type_ := "commit", Content := b.Content } : blob)) := by
  obtain ⟨t, ht, hel⟩ := treeBody_fold
    (fun b => { Path := b.Path, Mode := b.Mode, Type_ := "commit", Content := b.Content })
    opts.Blobs.elems
    { BaseTree := opts.Base, Owner := (scm.Split repo).1, Repo := (scm.Split repo).2 }
  have hel2 : t.elems =
      opts.Blobs.elems.map (fun b =>
        ({ Path := b.Path, Mode := b.Mode, Type_ := "commit", Content := b.Content } : blob)) := by
    rw [hel]
    rfl
  refine ⟨{ BaseTree := opts.Base, Owner := (scm.Split repo).1, Repo := (scm.Split repo).2,
            Tree := t }, ?_, rfl, rfl, rfl, ?_, hel2⟩
  · rw [← ht]
    rfl
  · show t.elems.length = opts.Blobs.elems.length
    rw [hel2, List.length_map]

end Transport

end github

namespace github

open go scm

section Pipeline

variable {Ctx Res Err σ : Type}

theorem createTree_calls (s : gitService Ctx Res Err σ) (w : World Ctx σ) (ctx : Ctx)
    (repo : String) (opts : scm.CommitInput) :
    ∃ c : Call Ctx, (s.createTree w ctx repo opts).world.calls = w.calls ++ [c] ∧
      c.method = "POST" ∧ c.path = "repos/" ++ repo ++ "/git/trees" :=
  ⟨_, rfl, rfl, rfl⟩

theorem trees_ne_commits (repo : String) :
    "repos/" ++ repo ++ "/git/trees" ≠ "repos/" ++ repo ++ "/git/commits" := by
  intro h
  have h2 := congrArg String.data h
  simp only [String.data_append, List.append_cancel_left_eq] at h2
  revert h2
  decide

theorem CreateCommit_of_tree_failure (s : gitService Ctx Res Err σ) (w : World Ctx σ)
    (ctx : Ctx) (repo : String) (opts : scm.CommitInput)
    (h : (s.createTree w ctx repo opts).err.isSome = true) :
    s.CreateCommit w ctx repo opts =
      { world := (s.createTree w ctx repo opts).world, val := none,
        res := (s.createTree w ctx repo opts).res, err := (s.createTree w ctx repo opts).err } := by
  unfold gitService.CreateCommit
  simp only [h, if_true]

theorem CreateCommit_of_tree_success (s : gitService Ctx Res Err σ) (w : World Ctx σ)
    (ctx : Ctx) (repo : String) (opts : scm.CommitInput)
    (h : (s.createTree w ctx repo opts).err = none) :
    s.CreateCommit w ctx repo opts =
      (let r := s.client.do_ (s.createTree w ctx repo opts).world ctx "POST"
          ("repos/" ++ repo ++ "/git/commits")
          (In.commitInput
            { Message := opts.Message, Tree := (s.createTree w ctx repo opts).val.Sha,
              Parents := Slice.mk [opts.Base] })
          OutKind.commit ({} : commit)
       if r.err.isSome then { world := r.world, val := none, res := r.res, err := r.err }
       else { world := r.world, val := some (convertCommit r.val), res := r.res, err := r.err }) := by
  unfold gitService.CreateCommit
  simp only [h, Option.isSome_none, Bool.false_eq_true, if_false]

/-- C1. For every repository identifier, commit input and transport: if the
tree-creation call fails, `CreateCommit` makes exactly one transport call in total,
the POST to `repos/{repo}/git/trees`; no call to `repos/{repo}/git/commits` is made. -/
theorem CreateCommit_tree_failure_one_call (s : gitService Ctx Res Err σ) (w : World Ctx σ)
    (ctx : Ctx) (repo : String) (opts : scm.CommitInput)
    (hfail : (s.createTree w ctx repo opts).err ≠ none) :
    ∃ c : Call Ctx,
      (s.CreateCommit w ctx repo opts).world.calls = w.calls ++ [c] ∧
      (s.createTree w ctx repo opts).world.calls = w.calls ++ [c] ∧
      c.method = "POST" ∧ c.path = "repos/" ++ repo ++ "/git/trees" ∧
      c.path ≠ "repos/" ++ repo ++ "/git/commits" := by
  have h : (s.createTree w ctx repo opts).err.isSome = true := by
    cases he : (s.createTree w ctx repo opts).err with
    | none => exact absurd he hfail
    | some e => rfl
  obtain ⟨c, hc, hm, hp⟩ := createTree_calls s w ctx repo opts
  refine ⟨c, ?_, hc, hm, hp, ?_⟩
  · rw [CreateCommit_of_tree_failure s w ctx repo opts h]
    exact hc
  · rw [hp]
    exact trees_ne_commits repo

/-- Witness of C1: the sample service whose first call fails. -/
theorem CreateCommit_tree_failure_one_call_witness :
    ((scripted 0).createTree fresh () "octo/hello" sampleInput).err ≠ none ∧
      ∃ c : Call Unit,
        ((scripted 0).CreateCommit fresh () "octo/hello" sampleInput).world.calls
          = fresh.calls ++ [c] ∧
        ((scripted 0).createTree fresh () "octo/hello" sampleInput).world.calls
          = fresh.calls ++ [c] ∧
        c.method = "POST" ∧ c.path = "repos/" ++ "octo/hello" ++ "/git/trees" ∧
        c.path ≠ "repos/" ++ "octo/hello" ++ "/git/commits" :=
  ⟨by decide,
    CreateCommit_tree_failure_one_call (scripted 0) fresh () "octo/hello" sampleInput
      (by decide)⟩

/-- C2. For every commit input with message `M` and base `B` and every transport
whose tree-creation call succeeds with response sha `T`, `CreateCommit` makes two
calls, and the second is a POST to `repos/{repo}/git/commits` whose body has
`message = M`, `tree = T` and `parents = [B]`, a list of exactly one element. -/
theorem CreateCommit_commit_request (s : gitService Ctx Res Err σ) (w : World Ctx σ)
    (ctx : Ctx) (repo : String) (opts : scm.CommitInput) (T : String)
    (hok : (s.createTree w ctx repo opts).err = none)
    (hsha : (s.createTree w ctx repo opts).val.Sha = T) :
    ∃ c : Call Ctx,
      (s.createTree w ctx repo opts).world.calls = w.calls ++ [c] ∧
      (s.CreateCommit w ctx repo opts).world.calls =
        w.calls ++
          [c,
           { ctx := ctx, method := "POST", path := "repos/" ++ repo ++ "/git/commits",
             body := In.commitInput
               { Message := opts.Message, Tree := T, Parents := Slice.mk [opts.Base] },
             out := OutKind.commit }] := by
  obtain ⟨c, hc, -, -⟩ := createTree_calls s w ctx repo opts
  refine ⟨c, hc, ?_⟩
  rw [CreateCommit_of_tree_success s w ctx repo opts hok, ← hsha]
  simp only []
  split <;> simp [do_calls, hc]

/-- Witness of C2: the sample service whose calls all succeed; the tree sha is `t1`. -/
theorem CreateCommit_commit_request_witness :
    ((scripted 2).createTree fresh () "octo/hello" sampleInput).err = none ∧
      ((scripted 2).createTree fresh () "octo/hello" sampleInput).val.Sha = "t1" ∧
      ∃ c : Call Unit,
        ((scripted 2).createTree fresh () "octo/hello" sampleInput).world.calls
          = fresh.calls ++ [c] ∧
        ((scripted 2).CreateCommit fresh () "octo/hello" sampleInput).world.calls =
          fresh.calls ++
            [c,
             { ctx := (), method := "POST", path := "repos/" ++ "octo/hello" ++ "/git/commits",
               body := In.commitInput
                 { Message := sampleInput.Message, Tree := "t1",
                   Parents := Slice.mk [sampleInput.Base] },
               out := OutKind.commit }] :=
  ⟨by decide, by decide,
    CreateCommit_commit_request (scripted 2) fresh () "octo/hello" sampleInput "t1"
      (by decide) (by decide)⟩

end Pipeline

end github

namespace github

open go scm

section Results

variable {Ctx Res Err σ : Type}

/-- C3. For every repository identifier, commit input and transport, with `t` the
tree-creation step and `c` the commit-creation call that follows it:
`CreateCommit` returns a commit if and only if both calls succeed, and the commit
is then `convertCommit` of the commit-creation response; if the tree step fails,
no commit is returned, the error is the tree step's and nothing more is called; if
the tree step succeeds and the commit call fails, no commit is returned and the
error is the commit call's. -/
theorem CreateCommit_all_or_nothing (s : gitService Ctx Res Err σ) (w : World Ctx σ)
    (ctx : Ctx) (repo : String) (opts : scm.CommitInput) :
    let t := s.createTree w ctx repo opts
    let c := s.client.do_ t.world ctx "POST" ("repos/" ++ repo ++ "/git/commits")
      (In.commitInput
        { Message := opts.Message, Tree := t.val.Sha, Parents := Slice.mk [opts.Base] })
      OutKind.commit ({} : commit)
    let r := s.CreateCommit w ctx repo opts
    (r.val.isSome = true ↔ t.err = none ∧ c.err = none) ∧
    (t.err = none → c.err = none →
      r.val = some (convertCommit c.val) ∧ r.err = none ∧ r.world = c.world) ∧
    (∀ e : Err, t.err = some e →
      r.val = none ∧ r.err = some e ∧ r.world = t.world) ∧
    (∀ e : Err, t.err = none → c.err = some e →
      r.val = none ∧ r.err = some e ∧ r.world = c.world) := by
  intro t c r
  cases ht : t.err with
  | some e =>
    have hr : r = { world := t.world, val := none, res := t.res, err := t.err } :=
      CreateCommit_of_tree_failure s w ctx repo opts (by rw [show _ = t.err from rfl, ht]; rfl)
    rw [hr]
    refine ⟨?_, ?_, ?_, ?_⟩
    · simp
    · intro h
      cases h
    · intro e2 h2
      exact ⟨rfl, ht.trans h2, rfl⟩
    · intro e2 h2
      cases h2
  | none =>
    have hr : r =
        if c.err.isSome then { world := c.world, val := none, res := c.res, err := c.err }
        else { world := c.world, val := some (convertCommit c.val), res := c.res, err := c.err } :=
      CreateCommit_of_tree_success s w ctx repo opts ht
    rw [hr]
    cases hc : c.err with
    | some e =>
      simp
    | none =>
      simp

/-- Witness of C3: the sample services failing no call, the commit call, and the
tree call. -/
theorem CreateCommit_all_or_nothing_witness :
    (((scripted 2).CreateCommit fresh () "octo/hello" sampleInput).val
        = some (convertCommit { Sha := "c1" }) ∧
      ((scripted 2).CreateCommit fresh () "octo/hello" sampleInput).err = none) ∧
    (((scripted 1).CreateCommit fresh () "octo/hello" sampleInput).val = none ∧
      ((scripted 1).CreateCommit fresh () "octo/hello" sampleInput).err = some "failed") ∧
    (((scripted 0).CreateCommit fresh () "octo/hello" sampleInput).val = none ∧
      ((scripted 0).CreateCommit fresh () "octo/hello" sampleInput).err = some "failed") :=
  ⟨⟨((CreateCommit_all_or_nothing (scripted 2) fresh () "octo/hello" sampleInput).2.1
        (by decide) (by decide)).1,
      ((CreateCommit_all_or_nothing (scripted 2) fresh () "octo/hello" sampleInput).2.1
        (by decide) (by decide)).2.1⟩,
    ⟨((CreateCommit_all_or_nothing (scripted 1) fresh () "octo/hello" sampleInput).2.2.2
        "failed" (by decide) (by decide)).1,
      ((CreateCommit_all_or_nothing (scripted 1) fresh () "octo/hello" sampleInput).2.2.2
        "failed" (by decide) (by decide)).2.1⟩,
    ⟨((CreateCommit_all_or_nothing (scripted 0) fresh () "octo/hello" sampleInput).2.2.1
        "failed" (by decide)).1,
      ((CreateCommit_all_or_nothing (scripted 0) fresh () "octo/hello" sampleInput).2.2.1
        "failed" (by decide)).2.1⟩⟩

/-- C8, as amended. For each of `FindBranch`, `FindTag` and `FindCommit` and every
transport: when the single transport call fails, the operation has made that one
call and no other, returns the transport's error unchanged, and returns next to it
the conversion of the record behind `out` as the transport left it. -/
theorem find_failure_passthrough (s : gitService Ctx Res Err σ) (w : World Ctx σ)
    (ctx : Ctx) (repo name : String) :
    (∀ e : Err,
      (s.client.exec w.state
        { ctx := ctx, method := "GET", path := "repos/" ++ repo ++ "/branches/" ++ name,
          body := In.nil, out := OutKind.branch } ({} : branch)).2.err = some e →
      (s.FindBranch w ctx repo name).err = some e ∧
      (s.FindBranch w ctx repo name).world.calls =
        w.calls ++
          [{ ctx := ctx, method := "GET", path := "repos/" ++ repo ++ "/branches/" ++ name,
             body := In.nil, out := OutKind.branch }] ∧
      (s.FindBranch w ctx repo name).val =
        some (convertBranch (s.client.exec w.state
          { ctx := ctx, method := "GET", path := "repos/" ++ repo ++ "/branches/" ++ name,
            body := In.nil, out := OutKind.branch } ({} : branch)).2.out)) ∧
    (∀ e : Err,
      (s.client.exec w.state
        { ctx := ctx, method := "GET", path := "repos/" ++ repo ++ "/git/ref/tags/" ++ name,
          body := In.nil, out := OutKind.ref } ({} : ref)).2.err = some e →
      (s.FindTag w ctx repo name).err = some e ∧
      (s.FindTag w ctx repo name).world.calls =
        w.calls ++
          [{ ctx := ctx, method := "GET", path := "repos/" ++ repo ++ "/git/ref/tags/" ++ name,
             body := In.nil, out := OutKind.ref }] ∧
      (s.FindTag w ctx repo name).val =
        some (convertRef (s.client.exec w.state
          { ctx := ctx, method := "GET", path := "repos/" ++ repo ++ "/git/ref/tags/" ++ name,
            body := In.nil, out := OutKind.ref } ({} : ref)).2.out)) ∧
    (∀ e : Err,
      (s.client.exec w.state
        { ctx := ctx, method := "GET", path := "repos/" ++ repo ++ "/commits/" ++ name,
          body := In.nil, out := OutKind.commit } ({} : commit)).2.err = some e →
      (s.FindCommit w ctx repo name).err = some e ∧
      (s.FindCommit w ctx repo name).world.calls =
        w.calls ++
          [{ ctx := ctx, method := "GET", path := "repos/" ++ repo ++ "/commits/" ++ name,
             body := In.nil, out := OutKind.commit }] ∧
      (s.FindCommit w ctx repo name).val =
        some (convertCommit (s.client.exec w.state
          { ctx := ctx, method := "GET", path := "repos/" ++ repo ++ "/commits/" ++ name,
            body := In.nil, out := OutKind.commit } ({} : commit)).2.out)) :=
  ⟨fun _ h => ⟨h, rfl, rfl⟩, fun _ h => ⟨h, rfl, rfl⟩, fun _ h => ⟨h, rfl, rfl⟩⟩

/-- Witness of C8 as amended: the sample service whose first call fails, asked
for a branch. -/
theorem find_failure_passthrough_witness :
    ((scripted 0).FindBranch fresh () "octo/hello" "gone").err = some "failed" ∧
      ((scripted 0).FindBranch fresh () "octo/hello" "gone").world.calls =
        fresh.calls ++
          [{ ctx := (), method := "GET", path := "repos/" ++ "octo/hello" ++ "/branches/" ++ "gone",
             body := In.nil, out := OutKind.branch }] ∧
      ((scripted 0).FindBranch fresh () "octo/hello" "gone").val =
        some (convertBranch ((scripted 0).client.exec fresh.state
          { ctx := (), method := "GET", path := "repos/" ++ "octo/hello" ++ "/branches/" ++ "gone",
            body := In.nil, out := OutKind.branch } ({} : branch)).2.out) :=
  (find_failure_passthrough (scripted 0) fresh () "octo/hello" "gone").1 "failed" (by decide)

/-- Counterexample to C8 as stated. With a transport whose call fails and writes
nothing, `FindBranch`, `FindTag` and `FindCommit` each return the error together
with a value: the conversion of the zero record. -/
theorem find_failure_value_counterexample :
    (((scripted 0).FindBranch fresh () "octo/hello" "gone").err = some "failed" ∧
      ((scripted 0).FindBranch fresh () "octo/hello" "gone").val
        = some { Name := "", Path := "refs/heads/", Sha := "" }) ∧
    (((scripted 0).FindTag fresh () "octo/hello" "gone").err = some "failed" ∧
      ((scripted 0).FindTag fresh () "octo/hello" "gone").val
        = some { Name := "", Path := "", Sha := "" }) ∧
    (((scripted 0).FindCommit fresh () "octo/hello" "gone").err = some "failed" ∧
      ((scripted 0).FindCommit fresh () "octo/hello" "gone").val
        = some { Message := "", Sha := "", Link := "", Author := {}, Committer := {} }) := by
  decide

end Results

end github
